import Mathlib

/-!
Verification of the batch execution and live-output classification engine of
`navillera.py` (a PySide6 front-end driving the external `gallery-dl` tool).

The Python source is shallowly embedded here.  Text is modelled as `List Char`
(one Python `str` character per entry).  Fractional timestamps (`time.time()`,
`st.st_mtime`) are modelled as rationals; `0.5` is exactly representable, so the
grace-window comparison `st.st_mtime < batch_start + 0.5` is captured exactly.
The filesystem probe `os.stat` is modelled as an oracle returning either a
modification time, "file not found", or "some other OS error" (the three cases
the source's `try/except` ladder distinguishes).  Qt process events are
modelled as explicit state transitions; where signal-delivery order matters
(`QProcess.waitForFinished` emits `finished` synchronously, per the Qt
documentation) the model states this in the relevant definition's comment.
-/

namespace Navillera

/-- One Python string, character by character. -/
abbrev Line := List Char

/-! ### Python text primitives used by the source -/

/-- Characters stripped by Python `str.strip()`: the ASCII/Latin-1 whitespace
set — space, `\t`…`\r`, the information separators U+001C–U+001F (all four are
`str.isspace()` in Python, U+001F included), NEL and NBSP.  Wider Unicode
space characters (U+1680, U+2000…) never occur in the inputs concerned. -/
def isPySpace (c : Char) : Bool :=
  c = ' ' || c = '\t' || c = '\n' || c = '\r' || c = '\x0b' || c = '\x0c' ||
  c = '\x1c' || c = '\x1d' || c = '\x1e' || c = '\x1f' || c = '\x85' || c = '\xa0'

/-- Python `str.strip()`. -/
def pyStrip (l : Line) : Line :=
  ((l.dropWhile isPySpace).reverse.dropWhile isPySpace).reverse

/-- Line-break characters recognised by Python `str.splitlines()`. -/
def isLineBreakChar (c : Char) : Bool :=
  c = '\n' || c = '\r' || c = '\x0b' || c = '\x0c' || c = '\x1c' || c = '\x1d' ||
  c = '\x1e' || c = '\x85' || c = '\u2028' || c = '\u2029'

/-- Worker for `splitLines`; `acc` holds the current line reversed. -/
def splitLinesGo : List Char → List Char → List Line
  | [], acc => if acc.isEmpty then [] else [acc.reverse]
  | '\r' :: '\n' :: rest, acc => acc.reverse :: splitLinesGo rest []
  | c :: rest, acc =>
    if isLineBreakChar c then acc.reverse :: splitLinesGo rest []
    else splitLinesGo rest (c :: acc)

/-- Python `str.splitlines()`: split at any line-break character, treating
`"\r\n"` as a single break; a trailing break produces no empty final line. -/
def splitLines (text : List Char) : List Line :=
  splitLinesGo text []

/-- Python `needle in hay` substring test. -/
def hasSub (needle : Line) : List Char → Bool
  | [] => needle.isPrefixOf []
  | c :: t => needle.isPrefixOf (c :: t) || hasSub needle t

/-- Python `str.lower()` (ASCII case mapping; the keywords compared against
are ASCII, and no non-ASCII character lowercases into them). -/
def pyLower (l : Line) : Line := l.map Char.toLower

/-! ### URL normalizer: `_clean_urls` (src lines 560-576) plus the
order-preserving de-duplication of `start_run` (src lines 718-726) -/

/-- Characters allowed in a URL scheme by `urllib.parse` (`scheme_chars`). -/
def schemeChar (c : Char) : Bool :=
  c.isAlphanum || c = '+' || c = '-' || c = '.'

/-- The scheme-splitting step of `urllib.parse.urlsplit`: if the text up to the
first `':'` is non-empty, starts with an ASCII letter and consists of scheme
characters, it is the (lowercased) scheme and the remainder follows the colon;
otherwise the scheme is empty and the whole text remains. -/
def splitScheme (l : List Char) : List Char × List Char :=
  let i := l.findIdx (fun c => c = ':')
  if i < l.length ∧ 0 < i ∧ (l.take i).all schemeChar ∧ (l.getD 0 ' ').isAlpha then
    ((l.take i).map Char.toLower, l.drop (i + 1))
  else ([], l)

/-- Result of `urllib.parse.urlparse` restricted to the fields the source
reads: `ok scheme netloc`, or `invalid` when the library raises `ValueError`
or when the netloc needs validation this model does not reproduce (see
`pyUrlSplit`). -/
inductive UrlParse
  | ok (scheme netloc : List Char)
  | invalid
deriving DecidableEq, Repr

/-- `urllib.parse.urlsplit`, restricted to scheme and netloc: tab/CR/LF are
removed anywhere in the input (CPython's `_UNSAFE_URL_BYTES_TO_REMOVE`), the
scheme is split off, and if the remainder starts with `"//"` the netloc runs
to the first `'/'`, `'?'` or `'#'`.  CPython then validates the netloc and
may raise `ValueError`: always when it contains `'['` without `']'` or vice
versa; via `_check_bracketed_host` when a bracketed host is not a valid
IPv6/IPvFuture literal; and via `_checknetloc` when a non-ASCII netloc's NFKC
normalization introduces one of `/?#@:` (e.g. a fullwidth colon).  The latter
two depend on CPython's IPv6 parser and the Unicode NFKC tables, which are
not reproduced: the model conservatively returns `invalid` for every netloc
containing a square bracket or a non-ASCII character — a superset of the
raising netlocs.  On ASCII bracket-free netlocs (`_checknetloc` returns
immediately for ASCII input) the model is exact, so an `ok` result always
coincides with CPython's non-raising result; where the model refuses a netloc
CPython would accept (e.g. `[::1]`, or an accepted non-ASCII host) it merely
declines to certify and `cleanUrls` yields `none`. -/
def pyUrlSplit (raw : List Char) : UrlParse :=
  let l := raw.filter (fun c => !(c = '\t' || c = '\r' || c = '\n'))
  let sr := splitScheme l
  let rest := sr.2
  if rest.take 2 = ['/', '/'] then
    let netloc := (rest.drop 2).takeWhile (fun c => !(c = '/' || c = '?' || c = '#'))
    if netloc.contains '[' || netloc.contains ']' ||
       !(netloc.all (fun c => c.toNat < 128)) then .invalid
    else .ok sr.1 netloc
  else .ok sr.1 []

/-- Strip one layer of enclosing angle brackets, then re-strip whitespace:
`if ln.startswith("<") and ln.endswith(">"): ln = ln[1:-1].strip()`. -/
def unwrapAngle (l : Line) : Line :=
  if l.head? = some '<' ∧ l.getLast? = some '>' then pyStrip ((l.drop 1).dropLast)
  else l

/-- The acceptance test of `_clean_urls`:
`p.scheme in ("http", "https") and p.netloc`. -/
def schemeHostOk (sch nl : List Char) : Bool :=
  (sch == "http".data || sch == "https".data) && !nl.isEmpty

/-- The loop of `_clean_urls` over already-stripped lines, returning the
accepted URLs and the skipped-line count, or `none` when `urlparse` raises
(which propagates out of the method) or when `pyUrlSplit` conservatively
declines to certify a netloc. -/
def cleanUrlsGo : List Line → Option (List Line × Nat)
  | [] => some ([], 0)
  | ln :: rest =>
    if ln.isEmpty then cleanUrlsGo rest
    else
      match pyUrlSplit (unwrapAngle ln) with
      | .invalid => none
      | .ok sch nl =>
        match cleanUrlsGo rest with
        | none => none
        | some (us, sk) =>
          if schemeHostOk sch nl then some (unwrapAngle ln :: us, sk)
          else some (us, sk + 1)

/-- `_clean_urls` (src lines 560-576): strip every line of the input text, skip
empty lines, unwrap one layer of angle brackets, and accept exactly the lines
that parse with an http/https scheme and a non-empty host. -/
def cleanUrls (text : List Char) : Option (List Line × Nat) :=
  cleanUrlsGo ((splitLines text).map pyStrip)

/-- Acceptance of a single raw input line as the spec words it: after trimming
whitespace and stripping one layer of enclosing angle brackets, the line parses
as a URL with scheme http or https and a non-empty host.  (Modelled from the
spec's wording for comparison against the `_clean_urls` pipeline.) -/
def acceptStripped (ln : Line) : Bool :=
  !ln.isEmpty &&
    (match pyUrlSplit (unwrapAngle ln) with
     | .ok sch nl => schemeHostOk sch nl
     | .invalid => false)

/-- Spec-worded per-line acceptance applied to a raw (unstripped) line. -/
def specAcceptLine (raw : Line) : Bool :=
  acceptStripped (pyStrip raw)

/-- Worker for `dedupe`: the `seen` set of `start_run`'s de-duplication loop. -/
def dedupeGo (seen : List Line) : List Line → List Line
  | [] => []
  | u :: rest =>
    if u ∈ seen then dedupeGo seen rest
    else u :: dedupeGo (u :: seen) rest

/-- The order-preserving de-duplication of `start_run` (src lines 718-726):
keep the first occurrence of each URL, by exact string equality. -/
def dedupe (l : List Line) : List Line := dedupeGo [] l

/-- De-duplication by first occurrence as the spec words it: the first copy of
each string is kept in place and every later copy is dropped.  (Spec-side
characterization — keep-last de-duplication does not satisfy it — to be
compared with `start_run`'s seen-set loop.) -/
def keepFirsts : List Line → List Line
  | [] => []
  | u :: rest => u :: keepFirsts (rest.filter (fun v => !(v == u)))
termination_by l => l.length
decreasing_by
  simp_wf
  exact Nat.lt_succ_of_le (List.length_filter_le _ _)

/-! ### Batch planner: `_build_batches` (src lines 749-764) -/

/-- The loop of `_build_batches`: `cur` is the batch being filled and `curLen`
the running serialized length.  A URL contributes `len(u) + 1`; when adding it
would exceed `maxLen` and `cur` is non-empty, `cur` is closed and a new batch
is seeded with just that URL — with running length `base + len(u)`, as in the
source (`cur_len = base_args_len + len(u)`). -/
def buildBatchesGo (base maxLen : Nat) : List Line → List Line → Nat → List (List Line)
  | [], cur, _ => if cur = [] then [] else [cur]
  | u :: rest, cur, curLen =>
    if cur ≠ [] ∧ maxLen < curLen + (u.length + 1) then
      cur :: buildBatchesGo base maxLen rest [u] (base + u.length)
    else
      buildBatchesGo base maxLen rest (cur ++ [u]) (curLen + (u.length + 1))

/-- `_build_batches(urls, base_args_len, max_cmd_len)` (the source's default
budget is 30000; it is an explicit argument here). -/
def buildBatches (urls : List Line) (base maxLen : Nat) : List (List Line) :=
  buildBatchesGo base maxLen urls [] base

/-- Serialized command-line cost of a batch: the common-argument length plus
`len(u) + 1` per URL. -/
def batchCost (base : Nat) (b : List Line) : Nat :=
  base + (b.map (fun u => u.length + 1)).sum

/-! ### The file-path pattern of `_read_output` (src lines 818-821)

The source compiles, with `re.IGNORECASE | re.VERBOSE`:

    (?:[A-Za-z]:\\[^:*?"<>|\r\n]+|/[^:*?"<>|\r\n]+)
    \.(?:jpe?g|png|gif|webp|mp4|webm|mkv|mov|avi)\b

and calls `file_re.search(line)`, taking `m.group(0)`.  `re.search` finds the
leftmost starting position admitting a match; at a position, the path body
`[^:*?"<>|\r\n]+` is greedy with backtracking, the extension alternatives are
tried in written order (`jpe?g` tries the `e` first), and `\b` requires the
character after the extension to be a non-word character or the end. -/

/-- Complement of the character class `[^:*?"<>|\r\n]` (the path body). -/
def excludedChar (c : Char) : Bool :=
  c = ':' || c = '*' || c = '?' || c = '"' || c = '<' || c = '>' || c = '|' ||
  c = '\r' || c = '\n'

/-- Python regex `\w` (ASCII part; the lines concerned are ASCII tool output). -/
def isWordChar (c : Char) : Bool := c.isAlphanum || c = '_'

/-- The extension alternatives in the order the regex engine tries them
(`jpe?g` greedily tries `jpeg` before `jpg`). -/
def extCandidates : List (List Char) :=
  ["jpeg".data, "jpg".data, "png".data, "gif".data, "webp".data, "mp4".data,
   "webm".data, "mkv".data, "mov".data, "avi".data]

/-- `\b` after the extension: end of input or a non-word character. -/
def boundaryOk : List Char → Bool
  | [] => true
  | c :: _ => !isWordChar c

/-- Match `(?:jpe?g|png|...)\b` case-insensitively at the start of `cs`,
returning the number of characters consumed. -/
def matchExt (cs : List Char) : Option Nat :=
  extCandidates.findSome? fun alt =>
    if (cs.take alt.length).map Char.toLower = alt && boundaryOk (cs.drop alt.length)
    then some alt.length else none

/-- Backtracking over the greedy body: try body length `j` (from the argument
downward to 1); the character after the body must be `'.'` followed by an
extension match.  Returns the total number of characters consumed
(body + dot + extension). -/
def bodyTry (cs : List Char) : Nat → Option Nat
  | 0 => none
  | j + 1 =>
    match cs.get? (j + 1), matchExt (cs.drop (j + 2)) with
    | some '.', some e => some (j + 2 + e)
    | _, _ => bodyTry cs j

/-- Match `[^:*?"<>|\r\n]+\.(?:jpe?g|...)\b` at the start of `cs`: the greedy
body first consumes the maximal run of body characters, then backtracks. -/
def matchTail (cs : List Char) : Option Nat :=
  bodyTry cs (cs.takeWhile (fun c => !excludedChar c)).length

/-- Match the whole pattern anchored at the start: a drive-letter head
`[A-Za-z]:\` or a `/`, then the body/extension tail.  Returns the matched
length. -/
def matchAt (cs : List Char) : Option Nat :=
  match cs with
  | a :: ':' :: '\\' :: rest =>
    if a.isAlpha then (matchTail rest).map (· + 3)
    else if a = '/' then (matchTail (':' :: '\\' :: rest)).map (· + 1)
    else none
  | '/' :: rest => (matchTail rest).map (· + 1)
  | _ => none

/-- `file_re.search(line)` followed by `m.group(0)`: scan positions left to
right and return the first (leftmost) match. -/
def fileSearch : List Char → Option Line
  | [] => none
  | c :: rest =>
    match matchAt (c :: rest) with
    | some n => some ((c :: rest).take n)
    | none => fileSearch rest

/-! ### The batch engine: state and transitions

State fields mirror the instance attributes of the `Navillera` widget that the
engine methods (`start_run`, `_run_next_batch`, `stop_run`, `_read_output`,
`_finished_batch`) read and write.  The summary labels are modelled by the last
`(done, total)` pair passed to `_update_summary_labels`, and the two buttons by
their enabled flags.  `startedProcs` is history: the URL list of every external
process ever started by `_run_next_batch` (`self.proc.start()`), in order — it
lets theorems speak about which processes a scenario launches. -/

/-- Result of the `os.stat` probe as the source's `try/except` ladder
distinguishes it. -/
inductive StatResult
  | found (mtime : ℚ)
  | notFound
  | otherErr
deriving DecidableEq

/-- The filesystem oracle consulted by the classifier. -/
abbrev FileSystem := Line → StatResult

/-- `self._totals`. -/
structure Totals where
  downloaded : Nat
  skipped : Nat
  failed : Nat
deriving DecidableEq, Repr

/-- Engine state: the widget attributes driven by the batch runner.
`batchIndex` starts at `-1` (set by `start_run`) and is only ever incremented,
so values below `-1` are unreachable. -/
structure EngineState where
  queue : List Line
  batches : List (List Line)
  batchIndex : Int
  totals : Totals
  seenPaths : List Line
  errorLines : Nat
  batchStartedAt : ℚ
  batchUrls : List Line
  procActive : Bool
  runBtnEnabled : Bool
  stopBtnEnabled : Bool
  progress : Nat × Nat
  startedProcs : List (List Line)
deriving DecidableEq

/-- `sum(len(b) for b in self._batches[: self._batch_index])` — the progress
numerator used while a batch is live (src lines 831 and 856). -/
def doneUrls (s : EngineState) : Nat :=
  ((s.batches.take s.batchIndex.toNat).map List.length).sum

/-- The live error test of `_read_output` (src line 828) applied to the
lowercased stripped line. -/
def isErrorLow (low : Line) : Bool :=
  hasSub ("error:".data) low || hasSub ("http error".data) low ||
  hasSub ("forbidden".data) low || hasSub ("not found".data) low

/-- The counter update of the `os.stat` probe (src lines 844-854): missing
file → downloaded; mtime strictly before batch start + 0.5 s → skipped;
otherwise downloaded; any other OS error → skipped.  Total by construction:
the `except` clauses mean the probe can never raise out of the classifier. -/
def probeUpdate (fs : FileSystem) (p : Line) (start : ℚ) (t : Totals) : Totals :=
  match fs p with
  | .found m =>
    if m < start + 1 / 2 then { t with skipped := t.skipped + 1 }
    else { t with downloaded := t.downloaded + 1 }
  | .notFound => { t with downloaded := t.downloaded + 1 }
  | .otherErr => { t with skipped := t.skipped + 1 }

/-- Classification of one line of process output (the loop body of
`_read_output`, src lines 823-857): strip, lowercase, count an error line and
stop; otherwise search for a media file path, skip it if already seen in this
batch, otherwise record it and classify by the filesystem probe. -/
def classifyLine (fs : FileSystem) (raw : Line) (s : EngineState) : EngineState :=
  let line := pyStrip raw
  let low := pyLower line
  if isErrorLow low then
    { s with errorLines := s.errorLines + 1,
             totals := { s.totals with failed := s.totals.failed + 1 },
             progress := (doneUrls s, s.queue.length) }
  else
    match fileSearch line with
    | none => s
    | some p =>
      if p ∈ s.seenPaths then s
      else
        { s with seenPaths := p :: s.seenPaths,
                 totals := probeUpdate fs p s.batchStartedAt s.totals,
                 progress := (doneUrls s, s.queue.length) }

/-- `_read_output` (src lines 805-857) on one delivered chunk: a no-op when no
process is attached or the chunk is empty; otherwise every line of
`chunk.splitlines()` is classified in order.  The source does NOT carry a
partial-line buffer between chunks: each chunk is split on its own. -/
def readOutput (fs : FileSystem) (chunk : List Char) (s : EngineState) : EngineState :=
  if s.procActive = false then s
  else if chunk.isEmpty then s
  else (splitLines chunk).foldl (fun st l => classifyLine fs l st) s

/-- `_run_next_batch` (src lines 766-791): advance the batch index; when past
the end, re-enable Run, disable Stop and show `total/total`; otherwise prepare
the batch (reset the seen-paths set and error-line counter, stamp the start
time) and start its external process.  `now` is `time.time()` at the call. -/
def runNextBatch (now : ℚ) (s : EngineState) : EngineState :=
  let idx := s.batchIndex + 1
  if (s.batches.length : Int) ≤ idx then
    { s with batchIndex := idx, runBtnEnabled := true, stopBtnEnabled := false,
             progress := (s.queue.length, s.queue.length) }
  else
    let urls := s.batches.getD idx.toNat []
    { s with batchIndex := idx, batchUrls := urls, batchStartedAt := now,
             seenPaths := [], errorLines := 0, procActive := true,
             startedProcs := s.startedProcs ++ [urls] }

/-- `_finished_batch` (src lines 859-876): read the exit code (`0` when no
process is attached), count a batch-level failure on a non-zero code, publish
progress over the batches completed so far, drop the process handle, reset the
per-batch helpers, and continue with the next batch.  `exitCode` is the code
the finished process reports. -/
def finishedBatch (now : ℚ) (exitCode : Int) (s : EngineState) : EngineState :=
  let code := if s.procActive then exitCode else 0
  let t := if code ≠ 0 then { s.totals with failed := s.totals.failed + 1 } else s.totals
  let done := ((s.batches.take (s.batchIndex + 1).toNat).map List.length).sum
  runNextBatch now
    { s with totals := t, progress := (done, s.queue.length),
             procActive := false, seenPaths := [], errorLines := 0 }

/-- `stop_run` (src lines 793-803).  When a process is active the source calls
`terminate()` and then `waitForFinished(1500)`.  Per the Qt documentation,
`QProcess.waitForFinished` emits the `finished` signal before returning when
the process ends within the wait; with the same-thread (direct) connection
made in `_run_next_batch`, the `_finished_batch` slot therefore runs inside
the wait — before `stop_run` clears the queue and batch list.
`gracefulExit = true` models that common path (the process died within the
1.5 s grace window, reporting `exitCode`); `gracefulExit = false` models the
timeout path, where `kill()` is issued and the `finished` event is delivered
only after `stop_run` returns (as a later `finishedBatch` step).  Afterwards
the queue and batch list are cleared, the buttons reset, and the summary
labels show `0 / 0`. -/
def stopRun (gracefulExit : Bool) (exitCode : Int) (now : ℚ) (s : EngineState) :
    EngineState :=
  let s1 :=
    if s.procActive then
      (if gracefulExit then finishedBatch now exitCode s else s)
    else s
  { s1 with queue := [], batches := [], runBtnEnabled := true,
            stopBtnEnabled := false, progress := (0, 0) }

/-! ### Lemmas about the batch planner -/

theorem buildBatchesGo_flatten (base maxLen : Nat) :
    ∀ (urls cur : List Line) (curLen : Nat),
      (buildBatchesGo base maxLen urls cur curLen).flatten = cur ++ urls := by
  intro urls
  induction urls with
  | nil =>
    intro cur curLen
    simp only [buildBatchesGo]
    split <;> simp_all
  | cons u rest ih =>
    intro cur curLen
    simp only [buildBatchesGo]
    split
    · simp [ih]
    · simp [ih]

theorem buildBatchesGo_ne_nil (base maxLen : Nat) :
    ∀ (urls cur : List Line) (curLen : Nat) (B : List Line),
      B ∈ buildBatchesGo base maxLen urls cur curLen → B ≠ [] := by
  intro urls
  induction urls with
  | nil =>
    intro cur curLen B hB
    simp only [buildBatchesGo] at hB
    split at hB <;> simp_all
  | cons u rest ih =>
    intro cur curLen B hB
    simp only [buildBatchesGo] at hB
    split at hB
    · rename_i hcond
      rcases List.mem_cons.mp hB with rfl | h
      · exact hcond.1
      · exact ih _ _ _ h
    · exact ih _ _ _ hB

theorem batchCost_append_single (base : Nat) (b : List Line) (u : Line) :
    batchCost base (b ++ [u]) = batchCost base b + (u.length + 1) := by
  simp [batchCost]
  omega

/-- Invariant proof for the command-line budget: provided the running length
`curLen` under-counts the true cost of `cur` by at most one and is within
budget once `cur` has at least two URLs, every emitted batch with at least two
URLs costs at most `maxLen + 1`. -/
theorem buildBatchesGo_budget (base maxLen : Nat) :
    ∀ (urls cur : List Line) (curLen : Nat),
      (cur = [] → curLen = base) →
      (cur ≠ [] → batchCost base cur ≤ curLen + 1) →
      (2 ≤ cur.length → curLen ≤ maxLen) →
      ∀ B ∈ buildBatchesGo base maxLen urls cur curLen,
        2 ≤ B.length → batchCost base B ≤ maxLen + 1 := by
  intro urls
  induction urls with
  | nil =>
    intro cur curLen h0 h1 h2 B hB hlen
    simp only [buildBatchesGo] at hB
    split at hB
    · simp at hB
    · rename_i hc
      have hBc : B = cur := by simpa using hB
      subst hBc
      have := h1 hc
      have := h2 hlen
      omega
  | cons u rest ih =>
    intro cur curLen h0 h1 h2 B hB hlen
    simp only [buildBatchesGo] at hB
    split at hB
    · rename_i hcond
      rcases List.mem_cons.mp hB with rfl | h
      · have := h1 hcond.1
        have := h2 hlen
        omega
      · refine ih [u] (base + u.length) ?_ ?_ ?_ B h hlen
        · intro hc; cases hc
        · intro _; simp [batchCost]; omega
        · intro hc; simp at hc
    · rename_i hcond
      refine ih (cur ++ [u]) (curLen + (u.length + 1)) ?_ ?_ ?_ B hB hlen
      · intro hc; simp at hc
      · intro _
        rw [batchCost_append_single]
        by_cases hc : cur = []
        · subst hc
          have := h0 rfl
          simp [batchCost]
          omega
        · have := h1 hc
          omega
      · intro hlen2
        by_cases hc : cur = []
        · subst hc
          simp at hlen2
        · have hnlt : ¬ maxLen < curLen + (u.length + 1) := fun hlt => hcond ⟨hc, hlt⟩
          omega

theorem length_le_flatten_length :
    ∀ (L : List (List Line)), (∀ B ∈ L, B ≠ []) → L.length ≤ L.flatten.length := by
  intro L
  induction L with
  | nil => simp
  | cons B L ih =>
    intro h
    simp only [List.flatten_cons, List.length_append, List.length_cons]
    have hB : B ≠ [] := h B (by simp)
    have h1 : 0 < B.length := List.length_pos.mpr hB
    have h2 := ih (fun b hb => h b (by simp [hb]))
    omega

/-! ### Claim theorems about the batch planner -/

/-- C2: for every ordered URL list, common-argument length and budget, the
concatenation of the batches returned by `_build_batches`, in order, is
exactly the input list — no URL lost, reordered or duplicated; composed with
the normalizer, the concatenation of the planned batches equals the
deduplicated normalized input. -/
theorem build_batches_join :
    (∀ (urls : List Line) (base maxLen : Nat),
        (buildBatches urls base maxLen).flatten = urls)
    ∧ (∀ (text : List Char) (base maxLen : Nat),
        (buildBatches (dedupe ((cleanUrls text).getD ([], 0)).1) base maxLen).flatten
          = dedupe ((cleanUrls text).getD ([], 0)).1) := by
  constructor
  · intro urls base maxLen
    simpa using buildBatchesGo_flatten base maxLen urls [] base
  · intro text base maxLen
    simpa using buildBatchesGo_flatten base maxLen
      (dedupe ((cleanUrls text).getD ([], 0)).1) [] base

/-- C3 (counterexample): with common-argument length 0 and budget 10, the
input `["aaaaaaaaa", "bbbbb", "cccc"]` produces the batch
`["bbbbb", "cccc"]` whose serialized cost is 11 > 10, although neither URL's
own length exceeds the budget — the claimed bound `C + sum(len(u)+1) ≤ M`
fails outside its stated exception, because the source seeds a fresh batch
with `cur_len = base_args_len + len(u)` (without the `+1` separator). -/
theorem build_batches_budget_cex :
    buildBatches [("aaaaaaaaa".data), ("bbbbb".data), ("cccc".data)] 0 10
      = [[("aaaaaaaaa".data)], [("bbbbb".data), ("cccc".data)]]
    ∧ batchCost 0 [("bbbbb".data), ("cccc".data)] = 11
    ∧ ("bbbbb".data).length ≤ 10 ∧ ("cccc".data).length ≤ 10 := by
  decide

/-- C3 (amended): every batch with at least two URLs produced by
`_build_batches` with common-argument length `base` and budget `maxLen`
satisfies `base + sum(len(u)+1 for u in B) ≤ maxLen + 1` (one more than the
claimed budget, since the separator of the URL seeding a batch after a split
is not counted); single-URL batches are unbounded — a URL that does not fit
within the budget occupies its own oversized batch. -/
theorem build_batches_budget_amended (urls : List Line) (base maxLen : Nat)
    (B : List Line) (hB : B ∈ buildBatches urls base maxLen) (h2 : 2 ≤ B.length) :
    batchCost base B ≤ maxLen + 1 :=
  buildBatchesGo_budget base maxLen urls [] base (fun _ => rfl)
    (fun h => absurd rfl h) (fun h => by simp at h) B hB h2

theorem build_batches_budget_amended_witness :
    batchCost 0 [("aa".data), ("bb".data)] ≤ 10 + 1 :=
  build_batches_budget_amended [("aa".data), ("bb".data)] 0 10
    [("aa".data), ("bb".data)] (by decide) (by decide)

/-- C10: every batch produced by `_build_batches` is non-empty; hence the
number of batches never exceeds the number of input URLs; and every external
process `_run_next_batch` starts is given one of the planned batches — so a
run over planned batches never launches a process with zero URL arguments. -/
theorem build_batches_nonempty :
    (∀ (urls : List Line) (base maxLen : Nat) (B : List Line),
        B ∈ buildBatches urls base maxLen → B ≠ [])
    ∧ (∀ (urls : List Line) (base maxLen : Nat),
        (buildBatches urls base maxLen).length ≤ urls.length)
    ∧ (∀ (now : ℚ) (s : EngineState), -1 ≤ s.batchIndex →
        ∀ B ∈ (runNextBatch now s).startedProcs, B ∈ s.startedProcs ∨ B ∈ s.batches) := by
  refine ⟨?_, ?_, ?_⟩
  · intro urls base maxLen B hB
    exact buildBatchesGo_ne_nil base maxLen urls [] base B hB
  · intro urls base maxLen
    have h1 := length_le_flatten_length (buildBatches urls base maxLen)
      (fun B hB => buildBatchesGo_ne_nil base maxLen urls [] base B hB)
    have h2 : (buildBatches urls base maxLen).flatten = urls := by
      simpa using buildBatchesGo_flatten base maxLen urls [] base
    rw [h2] at h1
    exact h1
  · intro now s hge B hB
    simp only [runNextBatch] at hB
    split at hB
    · exact Or.inl hB
    · rename_i hlt
      simp only [List.mem_append, List.mem_singleton] at hB
      rcases hB with h | rfl
      · exact Or.inl h
      · right
        have hidx : (s.batchIndex + 1).toNat < s.batches.length := by
          omega
        rw [List.getD_eq_getElem _ _ hidx]
        exact List.getElem_mem hidx

theorem build_batches_nonempty_witness :
    [("a".data)] ≠ ([] : List Line) :=
  build_batches_nonempty.1 [("a".data)] 0 10 [("a".data)] (by decide)

/-! ### Lemmas about the engine transitions -/

theorem runNextBatch_totals (now : ℚ) (s : EngineState) :
    (runNextBatch now s).totals = s.totals := by
  simp only [runNextBatch]
  split <;> rfl

theorem runNextBatch_continue (now : ℚ) (s : EngineState)
    (h : s.batchIndex + 1 < (s.batches.length : Int)) :
    (runNextBatch now s).procActive = true
    ∧ (runNextBatch now s).batchIndex = s.batchIndex + 1
    ∧ (runNextBatch now s).startedProcs.length = s.startedProcs.length + 1 := by
  simp only [runNextBatch]
  rw [if_neg (by omega)]
  simp

theorem runNextBatch_seen_reset (now : ℚ) (s : EngineState)
    (h : s.batchIndex + 1 < (s.batches.length : Int)) :
    (runNextBatch now s).seenPaths = [] := by
  simp only [runNextBatch]
  rw [if_neg (by omega)]

/-- Classifying a line whose found path was already seen in this batch leaves
the state untouched. -/
theorem classifyLine_mem_noop (fs : FileSystem) (raw p : Line) (s : EngineState)
    (h1 : isErrorLow (pyLower (pyStrip raw)) = false)
    (h2 : fileSearch (pyStrip raw) = some p)
    (hm : p ∈ s.seenPaths) :
    classifyLine fs raw s = s := by
  simp only [classifyLine, h1, Bool.false_eq_true, if_false, h2]
  rw [if_pos hm]

/-- Classifying a line whose found path was not yet seen records the path and
applies the probe update. -/
theorem classifyLine_new_path (fs : FileSystem) (raw p : Line) (s : EngineState)
    (h1 : isErrorLow (pyLower (pyStrip raw)) = false)
    (h2 : fileSearch (pyStrip raw) = some p)
    (hm : p ∉ s.seenPaths) :
    classifyLine fs raw s
      = { s with seenPaths := p :: s.seenPaths,
                 totals := probeUpdate fs p s.batchStartedAt s.totals,
                 progress := (doneUrls s, s.queue.length) } := by
  simp only [classifyLine, h1, Bool.false_eq_true, if_false, h2]
  rw [if_neg hm]

/-- After classifying a line with found path `p`, `p` is in the seen set. -/
theorem classifyLine_path_seen (fs : FileSystem) (raw p : Line) (s : EngineState)
    (h1 : isErrorLow (pyLower (pyStrip raw)) = false)
    (h2 : fileSearch (pyStrip raw) = some p) :
    p ∈ (classifyLine fs raw s).seenPaths := by
  by_cases hm : p ∈ s.seenPaths
  · rw [classifyLine_mem_noop fs raw p s h1 h2 hm]
    exact hm
  · rw [classifyLine_new_path fs raw p s h1 h2 hm]
    exact List.mem_cons_self p s.seenPaths

/-! ### Concrete states used by the scenario theorems -/

/-- Oracle for a filesystem on which every probed path is missing. -/
def fsMissing : FileSystem := fun _ => StatResult.notFound

def urlA : Line := "https://a.example/1".data

def urlB : Line := "https://b.example/2".data

/-- A state mid-run: two planned batches, the first one's process active
(as set up by `start_run` followed by one `_run_next_batch`). -/
def stopDemo : EngineState where
  queue := [urlA, urlB]
  batches := [[urlA], [urlB]]
  batchIndex := 0
  totals := ⟨0, 0, 0⟩
  seenPaths := []
  errorLines := 0
  batchStartedAt := 0
  batchUrls := [urlA]
  procActive := true
  runBtnEnabled := false
  stopBtnEnabled := true
  progress := (0, 2)
  startedProcs := [[urlA]]

/-- A state mid-run with a single batch whose process is active. -/
def readDemo : EngineState where
  queue := [urlA]
  batches := [[urlA]]
  batchIndex := 0
  totals := ⟨0, 0, 0⟩
  seenPaths := []
  errorLines := 0
  batchStartedAt := 0
  batchUrls := [urlA]
  procActive := true
  runBtnEnabled := false
  stopBtnEnabled := true
  progress := (0, 1)
  startedProcs := [[urlA]]

/-! ### Claim theorems about the engine -/

/-- C1 (the code evaluated at the failing input): the user stops the run while
the first of two batches is active and the terminated process exits within the
1.5 s grace window (the common case after `terminate()`), reporting exit code
0.  Because `QProcess.waitForFinished` emits `finished` before returning,
`_finished_batch` — and through it `_run_next_batch` — runs inside `stop_run`
before the batch list is cleared: the second batch's external process is
started by the stop call itself and is still active (never terminated) after
`stop_run` returns.  Totals are preserved, the batch list is cleared and the
progress pair shows 0/0, so the violated part of the claim is precisely that
no further batch's process is ever started. -/
theorem stop_run_starts_next_batch :
    (stopRun true 0 7 stopDemo).startedProcs = [[urlA], [urlB]]
    ∧ (stopRun true 0 7 stopDemo).procActive = true
    ∧ (stopRun true 0 7 stopDemo).batches = []
    ∧ (stopRun true 0 7 stopDemo).totals = stopDemo.totals
    ∧ (stopRun true 0 7 stopDemo).progress = (0, 0) := by
  decide

/-- C4 (the code evaluated at the failing input): `_read_output` splits each
chunk with `splitlines()` on its own and keeps no partial-line buffer, so a
line split across two chunks is classified as two separate fragments.  The
text `"error: boom"` fed as the two chunks `"err"` and `"or: boom"` increments
no counter, while the same text fed as a single chunk increments the failed
counter — chunk boundaries change the classification outcome, contradicting
the claimed boundary-independence. -/
theorem read_output_chunk_split_cex :
    ("err".data ++ "or: boom".data) = ("error: boom".data)
    ∧ ([("err".data), ("or: boom".data)].foldl
        (fun st c => readOutput fsMissing c st) readDemo).totals.failed = 0
    ∧ (readOutput fsMissing ("error: boom".data) readDemo).totals.failed = 1 := by
  decide

/-- C5: when a classified line carries a media file path not yet seen in the
current batch, the counter movement is decided by the filesystem probe: a
missing file increments downloaded; an existing file with modification time
strictly before batch start + 0.5 s increments skipped; one at or after that
threshold increments downloaded; any other filesystem error increments
skipped.  The probe's `except` ladder makes the classifier total — a probe
failure can never raise out of it (modelled by `probeUpdate` covering every
`StatResult`). -/
theorem classify_line_probe (fs : FileSystem) (raw p : Line) (s : EngineState)
    (h1 : isErrorLow (pyLower (pyStrip raw)) = false)
    (h2 : fileSearch (pyStrip raw) = some p)
    (h3 : p ∉ s.seenPaths) :
    (fs p = StatResult.notFound →
        (classifyLine fs raw s).totals
          = { s.totals with downloaded := s.totals.downloaded + 1 })
    ∧ (∀ m : ℚ, fs p = StatResult.found m → m < s.batchStartedAt + 1 / 2 →
        (classifyLine fs raw s).totals
          = { s.totals with skipped := s.totals.skipped + 1 })
    ∧ (∀ m : ℚ, fs p = StatResult.found m → ¬ m < s.batchStartedAt + 1 / 2 →
        (classifyLine fs raw s).totals
          = { s.totals with downloaded := s.totals.downloaded + 1 })
    ∧ (fs p = StatResult.otherErr →
        (classifyLine fs raw s).totals
          = { s.totals with skipped := s.totals.skipped + 1 }) := by
  rw [classifyLine_new_path fs raw p s h1 h2 h3]
  refine ⟨?_, ?_, ?_, ?_⟩
  · intro hfs
    simp [probeUpdate, hfs]
  · intro m hfs hlt
    simp only [probeUpdate, hfs]
    rw [if_pos hlt]
  · intro m hfs hge
    simp only [probeUpdate, hfs]
    rw [if_neg hge]
  · intro hfs
    simp [probeUpdate, hfs]

theorem classify_line_probe_witness :
    (classifyLine fsMissing ("/a.jpg".data) readDemo).totals
      = { readDemo.totals with downloaded := readDemo.totals.downloaded + 1 } :=
  (classify_line_probe fsMissing ("/a.jpg".data) ("/a.jpg".data) readDemo
    (by decide) (by decide) (by decide)).1 rfl

/-- C6: an output line whose lowercased form contains `"error:"`,
`"http error"`, `"forbidden"` or `"not found"` increments the failed counter
by exactly one and changes nothing else — no path classification is attempted
for it (the seen-path set is untouched).  In general every classified line
moves the three counters by at most one in total. -/
theorem classify_line_error_priority (fs : FileSystem) (raw : Line)
    (s : EngineState) (h : isErrorLow (pyLower (pyStrip raw)) = true) :
    (classifyLine fs raw s).totals.failed = s.totals.failed + 1
    ∧ (classifyLine fs raw s).totals.downloaded = s.totals.downloaded
    ∧ (classifyLine fs raw s).totals.skipped = s.totals.skipped
    ∧ (classifyLine fs raw s).seenPaths = s.seenPaths
    ∧ (classifyLine fs raw s).errorLines = s.errorLines + 1
    ∧ ∀ (fs2 : FileSystem) (raw2 : Line) (s2 : EngineState),
        (classifyLine fs2 raw2 s2).totals.downloaded
          + (classifyLine fs2 raw2 s2).totals.skipped
          + (classifyLine fs2 raw2 s2).totals.failed
          ≤ s2.totals.downloaded + s2.totals.skipped + s2.totals.failed + 1 := by
  have hcl : classifyLine fs raw s
      = { s with errorLines := s.errorLines + 1,
                 totals := { s.totals with failed := s.totals.failed + 1 },
                 progress := (doneUrls s, s.queue.length) } := by
    simp only [classifyLine, h, if_true]
  refine ⟨by rw [hcl], by rw [hcl], by rw [hcl], by rw [hcl], by rw [hcl], ?_⟩
  intro fs2 raw2 s2
  simp only [classifyLine]
  split
  · (try simp) <;> omega
  · split
    · omega
    · split
      · omega
      · simp only [probeUpdate]
        split
        · split <;> ((try simp) <;> omega)
        · (try simp) <;> omega
        · (try simp) <;> omega

theorem classify_line_error_priority_witness :
    (classifyLine fsMissing ("403 Forbidden".data) readDemo).totals.failed
      = readDemo.totals.failed + 1 :=
  (classify_line_error_priority fsMissing ("403 Forbidden".data) readDemo
    (by decide)).1

/-- C7: when a batch's process finishes, a non-zero exit code increments the
failed counter by exactly one (whatever line-level counts were already
recorded in `s.totals`) and a zero exit code leaves it unchanged; the other
counters never move; and when batches remain the runner continues — the next
batch's process is started rather than the run halting. -/
theorem finished_batch_failure (now : ℚ) (c : Int) (s : EngineState)
    (hp : s.procActive = true) :
    ((finishedBatch now c s).totals.failed
        = s.totals.failed + (if c ≠ 0 then 1 else 0))
    ∧ (finishedBatch now c s).totals.downloaded = s.totals.downloaded
    ∧ (finishedBatch now c s).totals.skipped = s.totals.skipped
    ∧ (s.batchIndex + 1 < (s.batches.length : Int) →
        (finishedBatch now c s).procActive = true
        ∧ (finishedBatch now c s).batchIndex = s.batchIndex + 1
        ∧ (finishedBatch now c s).startedProcs.length
            = s.startedProcs.length + 1) := by
  simp only [finishedBatch, hp, if_true, runNextBatch_totals]
  refine ⟨?_, ?_, ?_, ?_⟩
  · split <;> simp
  · split <;> simp
  · split <;> simp
  · intro hlt
    exact runNextBatch_continue now _ hlt

theorem finished_batch_failure_witness :
    (finishedBatch 3 1 stopDemo).totals.failed
      = stopDemo.totals.failed + (if (1 : Int) ≠ 0 then 1 else 0) :=
  (finished_batch_failure 3 1 stopDemo rfl).1

/-- C9: a file path is counted at most once per batch, even when it occurs in
several different classified lines.  Once a path is in the per-batch seen set,
classifying any later non-error line that yields the same path is a strict
no-op on the whole state; classifying a line that yields path `p` always
leaves `p` in the seen set; hence classifying a second — possibly textually
different — line carrying the same path changes nothing (the counters are
moved only by the first occurrence), and by chaining these two facts every
later occurrence within one batch is ignored.  The seen set is reset to empty
whenever `_run_next_batch` starts a batch. -/
theorem classify_line_path_once :
    (∀ (fs : FileSystem) (raw p : Line) (s : EngineState),
        isErrorLow (pyLower (pyStrip raw)) = false →
        fileSearch (pyStrip raw) = some p →
        p ∈ s.seenPaths →
        classifyLine fs raw s = s)
    ∧ (∀ (fs : FileSystem) (raw p : Line) (s : EngineState),
        isErrorLow (pyLower (pyStrip raw)) = false →
        fileSearch (pyStrip raw) = some p →
        p ∈ (classifyLine fs raw s).seenPaths)
    ∧ (∀ (fs : FileSystem) (raw1 raw2 p : Line) (s : EngineState),
        isErrorLow (pyLower (pyStrip raw1)) = false →
        fileSearch (pyStrip raw1) = some p →
        isErrorLow (pyLower (pyStrip raw2)) = false →
        fileSearch (pyStrip raw2) = some p →
        classifyLine fs raw2 (classifyLine fs raw1 s) = classifyLine fs raw1 s)
    ∧ (∀ (now : ℚ) (s2 : EngineState),
        s2.batchIndex + 1 < (s2.batches.length : Int) →
        (runNextBatch now s2).seenPaths = []) := by
  refine ⟨?_, ?_, ?_, ?_⟩
  · intro fs raw p s h1 h2 hm
    exact classifyLine_mem_noop fs raw p s h1 h2 hm
  · intro fs raw p s h1 h2
    exact classifyLine_path_seen fs raw p s h1 h2
  · intro fs raw1 raw2 p s h1a h1b h2a h2b
    exact classifyLine_mem_noop fs raw2 p (classifyLine fs raw1 s) h2a h2b
      (classifyLine_path_seen fs raw1 p s h1a h1b)
  · intro now s2 hlt
    exact runNextBatch_seen_reset now s2 hlt

/-! ### Lemmas about the normalizer -/

theorem dedupeGo_sublist : ∀ (l seen : List Line), (dedupeGo seen l).Sublist l := by
  intro l
  induction l with
  | nil => intro seen; simp [dedupeGo]
  | cons u rest ih =>
    intro seen
    simp only [dedupeGo]
    split
    · exact (ih seen).cons u
    · exact (ih (u :: seen)).cons₂ u

theorem mem_dedupeGo : ∀ (l seen : List Line) (x : Line),
    x ∈ dedupeGo seen l ↔ x ∈ l ∧ x ∉ seen := by
  intro l
  induction l with
  | nil =>
    intro seen x
    simp [dedupeGo]
  | cons u rest ih =>
    intro seen x
    simp only [dedupeGo]
    split
    · rename_i hu
      rw [ih seen x]
      simp only [List.mem_cons]
      constructor
      · rintro ⟨hx, hns⟩
        exact ⟨Or.inr hx, hns⟩
      · rintro ⟨hx, hns⟩
        rcases hx with rfl | hx2
        · exact absurd hu hns
        · exact ⟨hx2, hns⟩
    · rename_i hu
      simp only [List.mem_cons, ih (u :: seen) x]
      constructor
      · rintro (rfl | ⟨hx, hns⟩)
        · exact ⟨Or.inl rfl, hu⟩
        · refine ⟨Or.inr hx, ?_⟩
          intro hs
          exact hns (Or.inr hs)
      · rintro ⟨hx, hns⟩
        by_cases hxu : x = u
        · exact Or.inl hxu
        · rcases hx with rfl | hx2
          · exact Or.inl rfl
          · refine Or.inr ⟨hx2, ?_⟩
            rintro (h | h)
            · exact hxu h
            · exact hns h

/-- The seen-set loop keeps exactly the first occurrence of each string: it
computes `keepFirsts` on the elements not already seen. -/
theorem dedupeGo_eq_keepFirsts : ∀ (l seen : List Line),
    dedupeGo seen l = keepFirsts (l.filter (fun v => decide (v ∉ seen))) := by
  intro l
  induction l with
  | nil =>
    intro seen
    simp [dedupeGo, keepFirsts]
  | cons u rest ih =>
    intro seen
    simp only [dedupeGo]
    split
    · rename_i hu
      have hd : (decide (u ∉ seen)) = false := by simp [hu]
      rw [List.filter_cons, hd, if_neg (by simp)]
      exact ih seen
    · rename_i hu
      have hd : (decide (u ∉ seen)) = true := by simp [hu]
      rw [List.filter_cons, hd, if_pos rfl]
      simp only [keepFirsts]
      congr 1
      rw [ih (u :: seen), List.filter_filter]
      have hfun : (fun v : Line => decide (v ∉ u :: seen))
          = (fun a : Line => !(a == u) && decide (a ∉ seen)) := by
        funext v
        by_cases h1 : v = u
        · subst h1
          simp
        · by_cases h2 : v ∈ seen <;> simp [h1, h2]
      rw [hfun]

theorem dedupe_eq_keepFirsts (l : List Line) : dedupe l = keepFirsts l := by
  have h := dedupeGo_eq_keepFirsts l []
  simpa [dedupe] using h

theorem nodup_dedupeGo : ∀ (l seen : List Line), (dedupeGo seen l).Nodup := by
  intro l
  induction l with
  | nil => intro seen; simp [dedupeGo]
  | cons u rest ih =>
    intro seen
    simp only [dedupeGo]
    split
    · exact ih seen
    · refine List.nodup_cons.mpr ⟨?_, ih (u :: seen)⟩
      intro hu
      have hm := (mem_dedupeGo rest (u :: seen) u).mp hu
      exact hm.2 (List.mem_cons_self u seen)

/-- The accepted-URL list of `_clean_urls` is exactly the per-line acceptance
test applied to each stripped line, in order, each accepted line reported in
its angle-bracket-unwrapped form; and the skipped count is exactly the number
of non-empty stripped lines failing the test. -/
theorem cleanUrlsGo_accepted : ∀ (lns us : List Line) (sk : Nat),
    cleanUrlsGo lns = some (us, sk) →
    us = (lns.filter acceptStripped).map unwrapAngle
    ∧ sk = lns.countP (fun ln => !ln.isEmpty && !acceptStripped ln) := by
  intro lns
  induction lns with
  | nil =>
    intro us sk h
    simp only [cleanUrlsGo, Option.some.injEq, Prod.mk.injEq] at h
    simp [← h.1, ← h.2]
  | cons ln rest ih =>
    intro us sk h
    simp only [cleanUrlsGo] at h
    split at h
    · rename_i he
      obtain ⟨h1, h2⟩ := ih us sk h
      have ha : acceptStripped ln = false := by
        simp [acceptStripped, he]
      constructor
      · rw [h1, List.filter_cons]
        simp [ha]
      · rw [h2, List.countP_cons]
        simp [he]
    · rename_i he
      split at h
      · cases h
      · rename_i sch nl hp
        split at h
        · cases h
        · rename_i us' sk' hr
          obtain ⟨h1, h2⟩ := ih us' sk' hr
          split at h
          · rename_i hok
            simp only [Option.some.injEq, Prod.mk.injEq] at h
            obtain ⟨hu, hs⟩ := h
            subst hu
            subst hs
            have ha : acceptStripped ln = true := by
              simp [acceptStripped, hp, hok, he]
            constructor
            · rw [List.filter_cons]
              simp [ha, h1]
            · rw [List.countP_cons]
              simp [ha, h2]
          · rename_i hok
            simp only [Option.some.injEq, Prod.mk.injEq] at h
            obtain ⟨hu, hs⟩ := h
            subst hu
            subst hs
            have ha : acceptStripped ln = false := by
              simp [acceptStripped, hp, he, hok]
            constructor
            · rw [List.filter_cons]
              simp [ha, h1]
            · rw [List.countP_cons]
              simp [ha, he, h2]

/-- Input of the spec's Scenario A. -/
def scenarioText : List Char :=
  "https://example.com/a\nnot a url\nhttps://example.com/a".data

/-- The URL of the spec's Scenario A. -/
def exUrl : Line := "https://example.com/a".data

/-- C8: `_clean_urls` accepts exactly the lines that — after trimming and
unwrapping one layer of angle brackets — parse with an http/https scheme and
a non-empty host, in input order, and its skipped count is exactly the number
of non-empty lines failing that test; `start_run`'s de-duplication keeps the
first occurrence of each exact string — it equals the spec-side `keepFirsts`
(head kept, every later copy of it dropped, recursively), hence is a
duplicate-free subsequence with the same members; and on Scenario A's input
the pipeline yields exactly `["https://example.com/a"]`, reporting 1 skipped
non-URL line and removing 1 duplicate.  The acceptance hypothesis
`cleanUrls text = some …` holds exactly when `urlparse` raises on no line and
every netloc is ASCII and bracket-free (on those lines the `urlparse` model
is exact; elsewhere it conservatively declines, see `pyUrlSplit`). -/
theorem clean_urls_normalizer :
    (∀ (text : List Char) (us : List Line) (sk : Nat),
        cleanUrls text = some (us, sk) →
        us = ((splitLines text).filter specAcceptLine).map
              (fun raw => unwrapAngle (pyStrip raw))
          ∧ sk = ((splitLines text).map pyStrip).countP
              (fun ln => !ln.isEmpty && !acceptStripped ln))
    ∧ (∀ l : List Line,
        dedupe l = keepFirsts l
        ∧ (dedupe l).Sublist l ∧ (dedupe l).Nodup ∧ ∀ x, x ∈ dedupe l ↔ x ∈ l)
    ∧ cleanUrls scenarioText = some ([exUrl, exUrl], 1)
    ∧ dedupe [exUrl, exUrl] = [exUrl]
    ∧ [exUrl, exUrl].length - (dedupe [exUrl, exUrl]).length = 1 := by
  refine ⟨?_, ?_, ?_, ?_, ?_⟩
  · intro text us sk h
    have h' : cleanUrlsGo ((splitLines text).map pyStrip) = some (us, sk) := h
    obtain ⟨h1, h2⟩ := cleanUrlsGo_accepted ((splitLines text).map pyStrip) us sk h'
    constructor
    · rw [h1, List.filter_map, List.map_map]
      rfl
    · exact h2
  · intro l
    refine ⟨dedupe_eq_keepFirsts l, dedupeGo_sublist l [], nodup_dedupeGo l [],
      fun x => ?_⟩
    simp only [dedupe]
    rw [mem_dedupeGo]
    simp
  · decide
  · decide
  · decide

theorem clean_urls_normalizer_witness :
    [exUrl, exUrl]
      = ((splitLines scenarioText).filter specAcceptLine).map
          (fun raw => unwrapAngle (pyStrip raw)) :=
  (clean_urls_normalizer.1 scenarioText [exUrl, exUrl] 1 (by decide)).1

theorem classify_line_path_once_witness :
    classifyLine fsMissing ("/a.jpg done".data)
        (classifyLine fsMissing ("ok /a.jpg".data) readDemo)
      = classifyLine fsMissing ("ok /a.jpg".data) readDemo :=
  classify_line_path_once.2.2.1 fsMissing ("ok /a.jpg".data)
    ("/a.jpg done".data) ("/a.jpg".data) readDemo
    (by decide) (by decide) (by decide) (by decide)

end Navillera
